import Mathlib

/-!
# Verification of the speakersafetyd thermal supervisor

A shallow embedding of the speakersafetyd daemon (src/types.rs, src/main.rs,
src/blackbox.rs) and proofs about it.  Numeric types (`f32`/`f64`) are
modelled by an arbitrary linear ordered field `α` (instantiated at `ℚ` for
concrete evaluations and at `ℝ` where `exp`/`log` are needed); raw 16-bit
samples are modelled as `Int`.  The exponential function used by
`Speaker::skip_model` is passed in as a parameter `expf` so that the loop
embedding stays executable; the real claims instantiate it with `Real.exp`.
-/

set_option autoImplicit false

namespace SpeakerSafety

variable {α : Type} [LinearOrderedField α]

/-- Calibration constants of one `Speaker` (src/types.rs:245-263), together
with the copy of the `Globals` fields the model reads (`g` in the source:
`channels`, `t_ambient`, `t_window`, `t_hysteresis`). -/
structure SpeakerCfg (α : Type) where
  tauCoil : α
  tauMagnet : α
  trCoil : α
  trMagnet : α
  tLimit : α
  tHeadroom : α
  zNominal : α
  isScale : α
  vsScale : α
  isChan : Nat
  vsChan : Nat
  channels : Nat
  tAmbient : α
  tWindow : α
  tHysteresis : α
  deriving DecidableEq

/-- `SpeakerState` (src/types.rs:234-243). -/
structure SpeakerState (α : Type) where
  tCoil : α
  tMagnet : α
  tCoilHyst : α
  tMagnetHyst : α
  minGain : α
  gain : α
  deriving DecidableEq

/-- The faults `Speaker::run_model` can raise (the three `panic!` calls in
src/types.rs:348-375), tagged with the speaker name. -/
inductive RunFault where
  | coilTemp (drv : String)
  | magnetTemp (drv : String)
  | negPower (drv : String)
  deriving DecidableEq

/-- Voltage of sample `k`: `sample[vs_chan] as f32 / 32768.0 * vs_scale`
(src/types.rs:338).  For a buffer whose length is a multiple of `channels`,
Rust's `buf.chunks(channels)` makes chunk `k`, index `c` the flat index
`k * channels + c`. -/
def sampleV (cfg : SpeakerCfg α) (buf : List Int) (k : Nat) : α :=
  ((buf.getD (k * cfg.channels + cfg.vsChan) 0 : Int) : α) / 32768 * cfg.vsScale

/-- Current of sample `k` (src/types.rs:339). -/
def sampleI (cfg : SpeakerCfg α) (buf : List Int) (k : Nat) : α :=
  ((buf.getD (k * cfg.channels + cfg.isChan) 0 : Int) : α) / 32768 * cfg.isScale

/-- Instantaneous power `p = v * i` of sample `k` (src/types.rs:340). -/
def samplePwr (cfg : SpeakerCfg α) (buf : List Int) (k : Nat) : α :=
  sampleV cfg buf k * sampleI cfg buf k

/-- One per-sample temperature update (src/types.rs:342-346): both targets
are computed from the incoming state `t = (t_coil, t_magnet)`, then the two
first-order filters are applied. -/
def tempStep (cfg : SpeakerCfg α) (alphaCoil alphaMagnet : α) (t : α × α) (p : α) : α × α :=
  let tCoilTarget := t.2 + p * cfg.trCoil
  let tMagnetTarget := cfg.tAmbient + p * cfg.trMagnet
  (tCoilTarget * alphaCoil + t.1 * (1 - alphaCoil),
   tMagnetTarget * alphaMagnet + t.2 * (1 - alphaMagnet))

/-- Pure fold of `tempStep` over the samples listed in `ks` (used to state
properties of the abortable loop below). -/
def foldTemps (cfg : SpeakerCfg α) (alphaCoil alphaMagnet : α) (buf : List Int)
    (t0 : α × α) (ks : List Nat) : α × α :=
  ks.foldl (fun t k => tempStep cfg alphaCoil alphaMagnet t (samplePwr cfg buf k)) t0

/-- The sample loop of `Speaker::run_model` (src/types.rs:335-362): for each
sample the temperatures are updated, then each temperature is checked
against `t_limit + t_headroom` and the frame is aborted on the first
violation; the power sum is accumulated. -/
def runSamples (cfg : SpeakerCfg α) (drv : String) (alphaCoil alphaMagnet : α)
    (buf : List Int) : List Nat → (α × α) × α → Except RunFault ((α × α) × α)
  | [], acc => .ok acc
  | k :: ks, (t, pwrSum) =>
    let p := samplePwr cfg buf k
    let t' := tempStep cfg alphaCoil alphaMagnet t p
    if t'.1 > cfg.tLimit + cfg.tHeadroom then .error (.coilTemp drv)
    else if t'.2 > cfg.tLimit + cfg.tHeadroom then .error (.magnetTemp drv)
    else runSamples cfg drv alphaCoil alphaMagnet buf ks (t', pwrSum + p)

/-- `Speaker::run_model` (src/types.rs:326-404).  Returns the updated
`SpeakerState` together with the gain it stores and returns, or the fault
raised by one of the three `panic!`s. -/
def runModel (drv : String) (cfg : SpeakerCfg α) (s : SpeakerState α)
    (buf : List Int) (sampleRate : α) : Except RunFault (SpeakerState α × α) :=
  let step := 1 / sampleRate
  let alphaCoil := step / (cfg.tauCoil + step)
  let alphaMagnet := step / (cfg.tauMagnet + step)
  let n := buf.length / cfg.channels
  match runSamples cfg drv alphaCoil alphaMagnet buf (List.range n)
      ((s.tCoil, s.tMagnet), 0) with
  | .error e => .error e
  | .ok (t, pwrSum) =>
    let pwrAvg := pwrSum / (n : α)
    if pwrAvg < -(1/100) then .error (.negPower drv)
    else
      let tCoilHyst := min (max s.tCoilHyst t.1) (t.1 + cfg.tHysteresis)
      let tMagnetHyst := min (max s.tMagnetHyst t.2) (t.2 + cfg.tHysteresis)
      let temp := max tCoilHyst tMagnetHyst
      let reduction := (temp - (cfg.tLimit - cfg.tWindow)) / cfg.tWindow
      let gain := s.minGain * max reduction 0
      let gain' := if gain > -(1/100) then 0 else gain
      .ok ({ s with tCoil := t.1, tMagnet := t.2, tCoilHyst := tCoilHyst,
                    tMagnetHyst := tMagnetHyst, gain := gain' }, gain')

/-- `Speaker::skip_model` (src/types.rs:406-422); the exponential is a
parameter `expf` (instantiated with `Real.exp` over `ℝ`). -/
def skipModel (cfg : SpeakerCfg α) (expf : α → α) (s : SpeakerState α) (time : α) :
    SpeakerState α :=
  let tCoil := s.tCoil - cfg.tAmbient
  let tMagnet := s.tMagnet - cfg.tAmbient
  let eta := 1 / (1 - cfg.tauCoil / cfg.tauMagnet)
  let a := expf (-time / cfg.tauCoil) * (tCoil - eta * tMagnet)
  let b := expf (-time / cfg.tauMagnet) * tMagnet
  { s with tCoil := cfg.tAmbient + a + b * eta, tMagnet := cfg.tAmbient + b }

/-- Initial `SpeakerState` built by `Speaker::new` (src/types.rs:289-310),
over `ℝ` because `min_gain` needs `log10` and `powf`.  `ampGain` is the
dB value read back from the amp-gain control.  The hysteresis fields and
the gain start at `Default::default()`, i.e. `0`. -/
noncomputable def speakerNewState (cfg : SpeakerCfg ℝ) (coldBoot : Bool) (ampGain : ℝ) :
    SpeakerState ℝ :=
  let tCoil := if coldBoot then (cfg.tLimit - cfg.tWindow) - 1 else cfg.tLimit
  let tMagnet := cfg.tAmbient +
    (tCoil - cfg.tAmbient) * (cfg.trMagnet / (cfg.trMagnet + cfg.trCoil))
  let maxDt := cfg.tLimit - cfg.tAmbient
  let maxPwr := maxDt / (cfg.trMagnet + cfg.trCoil)
  let peakPwr := (10 : ℝ) ^ (ampGain / 10) / cfg.zNominal * 2
  let minGain := min (Real.logb 10 (maxPwr / peakPwr) * 10) 0
  { tCoil := tCoil, tMagnet := tMagnet, tCoilHyst := 0, tMagnetHyst := 0,
    minGain := minGain, gain := 0 }

/-- The three `assert!`s of `Speaker::new` (src/types.rs:312-314). -/
def speakerNewChecks (cfg : SpeakerCfg α) : Prop :=
  cfg.isChan < cfg.channels ∧ cfg.vsChan < cfg.channels ∧
    cfg.tLimit - cfg.tWindow > cfg.tAmbient

/-! ## Mixer construction (sense switches)

`Mixer::new` (src/types.rs:81-141) writes `true` to the VSENSE switch, reads
it back and asserts it; then writes `true` to the ISENSE switch but — in the
source — reads back and asserts the **VSENSE** element again
(src/types.rs:107-108 reuse `vs.val`).  The card is abstracted by the two
boolean values the switches report when read back after the writes. -/

/-- Readback values of the two sense switches after each has been written
`true`: what `read_ev` delivers into the respective `ElemValue`. -/
structure SenseCard where
  vsenseRead : Bool
  isenseRead : Bool
  deriving DecidableEq

/-- The sense-switch part of `Mixer::new` (src/types.rs:88-108): the two
assertion sites, in source order.  Note both `read_ev`/`assert!` pairs act
on the VSENSE element (`vs.val`) in the source. -/
def mixerSenseInit (card : SenseCard) : Except String Unit :=
  if ¬ card.vsenseRead then .error "VSENSE readback assert failed"
  else if ¬ card.vsenseRead then .error "VSENSE readback assert failed (after ISENSE write)"
  else .ok ()

/-! ## Blackbox recorder (src/blackbox.rs) -/

/-- `Block` (src/blackbox.rs:12-16). -/
structure Block (α : Type) where
  sampleRate : Int
  data : List Int
  state : List (List (SpeakerState α))
  deriving DecidableEq

/-- `MAX_BLOCKS` (src/blackbox.rs:26). -/
def MAX_BLOCKS : Nat := 330

/-- The eviction loop of `Blackbox::push`
(src/blackbox.rs:43-45: `while len >= MAX_BLOCKS { remove(0) }`). -/
def bbEvict (l : List (Block α)) : List (Block α) :=
  if h : MAX_BLOCKS ≤ l.length then bbEvict l.tail else l
termination_by l.length
decreasing_by simp only [List.length_tail, MAX_BLOCKS] at h ⊢; omega

/-- `Blackbox::push` (src/blackbox.rs:42-51). -/
def bbPush (l : List (Block α)) (b : Block α) : List (Block α) :=
  bbEvict l ++ [b]

/-- `Blackbox::reset` (src/blackbox.rs:38-40). -/
def bbReset (_l : List (Block α)) : List (Block α) := []

/-- The operations the supervisor loop performs on the ring. -/
inductive BBOp (α : Type) where
  | push (b : Block α)
  | reset

/-- Apply one ring operation. -/
def bbApply (l : List (Block α)) : BBOp α → List (Block α)
  | .push b => bbPush l b
  | .reset => bbReset l

/-- A JSON value, as built by the `json` crate in `Blackbox::preserve`. -/
inductive Json (α : Type) where
  | null
  | jint (n : Int)
  | jnat (n : Nat)
  | jnum (x : α)
  | jstr (s : String)
  | arr (items : List (Json α))
  | obj (fields : List (String × Json α))

/-- Key update on a JSON object's field list: the `json` crate's
`value[key] = v` replaces the value in place if the key is present and
appends it otherwise. -/
def setKey (fs : List (String × Json α)) (k : String) (v : Json α) :
    List (String × Json α) :=
  match fs with
  | [] => [(k, v)]
  | (k', v') :: rest => if k' = k then (k, v) :: rest else (k', v') :: setKey rest k v

/-- `meta[key] = v` on an object (src/blackbox.rs:112,116). -/
def Json.set (j : Json α) (k : String) (v : Json α) : Json α :=
  match j with
  | .obj fs => .obj (setKey fs k v)
  | j => j

/-- Top-level keys of a JSON object. -/
def Json.topKeys (j : Json α) : List String :=
  match j with
  | .obj fs => fs.map Prod.fst
  | _ => []

/-- `Blackbox` (src/blackbox.rs:18-23); of the stored `Globals` only the
fields `preserve` reads are kept (`channels`, `t_ambient`, `t_safe_max`,
`t_hysteresis`). -/
structure Blackbox (α : Type) where
  machine : String
  channels : Nat
  tAmbient : α
  tSafeMax : α
  tHysteresis : α
  blocks : List (Block α)

/-- The JSON snapshot of one `SpeakerState`
(src/blackbox.rs:102-109). -/
def speakerStateJson (s : SpeakerState α) : Json α :=
  .obj [("t_coil", .jnum s.tCoil), ("t_magnet", .jnum s.tMagnet),
        ("t_coil_hyst", .jnum s.tCoilHyst), ("t_magnet_hyst", .jnum s.tMagnetHyst),
        ("min_gain", .jnum s.minGain), ("gain", .jnum s.gain)]

/-- The per-block metadata object (src/blackbox.rs:92-113).  Note the inner
loop iterates `self.blocks[0].state` — the FIRST block's snapshot — for
every block (src/blackbox.rs:100), hence the `firstState` argument. -/
def blockJson (channels : Nat) (firstState : List (List (SpeakerState α)))
    (block : Block α) : Json α :=
  (Json.obj [("sample_rate", .jint block.sampleRate),
             ("sample_count", .jnat (block.data.length / channels)),
             ("speakers", .null)]).set "speakers"
    (.arr ((firstState.map (fun group => group.map speakerStateJson)).flatten))

/-- The metadata JSON written by `Blackbox::preserve`
(src/blackbox.rs:79-116): a top-level object whose `blocks` slot, first
`null`, is then assigned the per-block array. -/
def metaJson (bb : Blackbox α) (reason : String) : Json α :=
  let first := bb.blocks.headD ⟨0, [], []⟩
  (Json.obj [("message", .jstr reason), ("machine", .jstr bb.machine),
             ("sample_rate", .jint first.sampleRate),
             ("channels", .jnat bb.channels),
             ("t_ambient", .jnum bb.tAmbient),
             ("t_safe_max", .jnum bb.tSafeMax),
             ("t_hysteresis", .jnum bb.tHysteresis),
             ("blocks", .null)]).set "blocks"
    (.arr (bb.blocks.map (blockJson bb.channels first.state)))

/-- Content of a file written by `preserve`. -/
inductive FileData (α : Type) where
  | raw (words : List Int)
  | meta (j : Json α)

/-- `Blackbox::preserve` (src/blackbox.rs:53-121), modelled by the list of
`(name, content)` files it creates: nothing on an empty ring
(src/blackbox.rs:54-57), otherwise `<now>.meta` and `<now>.raw`; the raw
file is the concatenation of every block's sample data
(src/blackbox.rs:68-77).  I/O errors are environment failures and are not
modelled; the function's own control flow always reaches `Ok`. -/
def preserveFiles (bb : Blackbox α) (now : String) (reason : String) :
    List (String × FileData α) :=
  if bb.blocks.isEmpty then []
  else [(now ++ ".meta", .meta (metaJson bb reason)),
        (now ++ ".raw", .raw ((bb.blocks.map Block.data).flatten))]

/-! ## The supervisor loop (src/main.rs:251-374)

One iteration of the `loop` inside `main` is modelled as a function of the
mutable loop state and of the per-iteration environment (signal flag, the
result of the blocking `readi`, the sample-rate knob reading, the wall-clock
gap `dt`).  Control writes performed through the ALSA handle are collected
in a trace; a `panic!` (or a panicking `unwrap`/index) becomes a `fatal`
outcome carrying the writes already performed, and the `ESTRPIPE`
reopen-and-`continue` path becomes `again`. -/

/-- `UNLOCK_MAGIC` (src/main.rs:33): `0xdec1be15u32 as i32`, i.e. the
two's-complement reinterpretation of `0xdec1be15`. -/
def UNLOCK_MAGIC : Int := 0xdec1be15 - 2 ^ 32

/-- One speaker as held by a `SpeakerGroup` in `main`: its ALSA name, its
calibration constants and its mutable state. -/
structure Sp (α : Type) where
  name : String
  cfg : SpeakerCfg α
  st : SpeakerState α
  deriving DecidableEq

/-- `SpeakerGroup` (src/main.rs:77-89). -/
structure SpeakerGroup (α : Type) where
  speakers : List (Sp α)
  gain : α
  deriving DecidableEq

/-- The mutable state of the supervisor loop: the retained sample rate, the
`BTreeMap<usize, SpeakerGroup>` (as an association list in key order), the
optional blackbox ring, and the `once_nominal` flag. -/
structure LoopSt (α : Type) where
  sampleRate : Int
  groups : List (Nat × SpeakerGroup α)
  blackbox : Option (List (Block α))
  onceNominal : Bool
  deriving DecidableEq

/-- Result of the blocking `readi` call (src/main.rs:256-291): a frame count,
or an error; an error is classified by the `ESTRPIPE` test, and the signal
flag is re-read inside the error path (`sigquitErr`). -/
inductive ReadRes where
  | ok (read : Nat)
  | err (sigquitErr : Bool) (isEstrpipe : Bool)
  deriving DecidableEq

/-- Per-iteration environment: the signal flag at the top of the loop, the
`readi` outcome, the signal flag re-read after a successful read
(src/main.rs:297), the capture buffer contents, the "Speaker Sample Rate"
knob reading, and the wall-clock gap in seconds. -/
structure IterIn (α : Type) where
  sigquit0 : Bool
  readRes : ReadRes
  sigquitAfter : Bool
  buf : List Int
  curRate : Int
  dt : α
  deriving DecidableEq

/-- Immutable per-run configuration the loop body reads: `Globals.channels`,
`Globals.period` and the `--max-reduction` option. -/
structure LoopGlobals (α : Type) where
  channels : Nat
  period : Nat
  maxReduction : Option α
  deriving DecidableEq

/-- A control write performed by the loop body: `write_int` on a named
integer element, or a dB volume write via `Speaker::update`. -/
inductive Write (α : Type) where
  | intWrite (elem : String) (v : Int)
  | volume (drv : String) (db : α)
  deriving DecidableEq

/-- The fatal conditions (panics) an iteration can raise. -/
inductive LFatal where
  | sigquit
  | readErr
  | invalidRate
  | dtAssert
  | emptyGroups
  | missingGroup (i : Nat)
  | emptyGroup
  | model (e : RunFault)
  | threshold
  deriving DecidableEq

/-- Outcome of one loop iteration: a fatal panic (with the control writes
already performed), the `ESTRPIPE` reopen-and-`continue` path, or a normal
completion with the new loop state. -/
inductive IterOut (α : Type) where
  | fatal (f : LFatal) (writes : List (Write α))
  | again (writes : List (Write α))
  | next (st : LoopSt α) (writes : List (Write α))
  deriving DecidableEq

/-- Whether the iteration completed normally. -/
def IterOut.isNext : IterOut α → Bool
  | .next _ _ => true
  | _ => false

/-- `groups[&i]` on the `BTreeMap` (src/main.rs:337): `find?` by key. -/
def lookupGroup (groups : List (Nat × SpeakerGroup α)) (i : Nat) :
    Option (SpeakerGroup α) :=
  (groups.find? (fun p => p.1 == i)).map Prod.snd

/-- The per-speaker state snapshots gathered for the blackbox
(src/main.rs:336-338): for each index in order, `groups[&i]` — a missing key
panics (the `Index` impl of `BTreeMap`). -/
def gatherStates (groups : List (Nat × SpeakerGroup α)) :
    List Nat → Except LFatal (List (List (SpeakerState α)))
  | [] => .ok []
  | i :: is' =>
    match lookupGroup groups i with
    | none => .error (.missingGroup i)
    | some gr => (gatherStates groups is').map (fun rest => gr.speakers.map Sp.st :: rest)

/-- The snapshot phase (src/main.rs:334-340): `max` over the group keys
(`unwrap` panics on an empty map), then `groups[&i]` for every
`i ∈ 0..=max`. -/
def snapshot (groups : List (Nat × SpeakerGroup α)) :
    Except LFatal (List (List (SpeakerState α))) :=
  match (groups.map Prod.fst).max? with
  | none => .error .emptyGroups
  | some m => gatherStates groups (List.range (m + 1))

/-- `skip_model` applied to every speaker of every group
(src/main.rs:326-328). -/
def skipGroups (expf : α → α) (t : α) (gs : List (Nat × SpeakerGroup α)) :
    List (Nat × SpeakerGroup α) :=
  gs.map (fun p =>
    let sps := p.2.speakers.map (fun s => { s with st := skipModel s.cfg expf s.st t })
    (p.1, { p.2 with speakers := sps }))

/-- `run_model` over the speakers of one group, in order
(src/main.rs:343-349): each call mutates its speaker's state; the first
panic aborts. -/
def runSpeakers (buf : List Int) (rate : α) :
    List (Sp α) → Except RunFault (List (Sp α) × List α)
  | [] => .ok ([], [])
  | sp :: rest =>
    match runModel sp.name sp.cfg sp.st buf rate with
    | .error e => .error e
    | .ok (st', g) =>
      (runSpeakers buf rate rest).map
        (fun p => ({ sp with st := st' } :: p.1, g :: p.2))

/-- The volume writes of one group (src/main.rs:350-358): every member's
volume is written exactly when the new gain differs from the group's last
committed gain. -/
def groupWrites (sps : List (Sp α)) (gain old : α) : List (Write α) :=
  if gain ≠ old then sps.map (fun s => .volume s.name gain) else []

/-- `group.gain` after one cycle (src/main.rs:350,357): updated only when
changed. -/
def newGain (gain old : α) : α :=
  if gain ≠ old then gain else old

/-- The `--max-reduction` debug check (src/main.rs:362-366). -/
def thresholdHit (mr? : Option α) (onceNominal : Bool) (gain : α) : Bool :=
  match mr? with
  | some mr => onceNominal && (if gain < -mr then true else false)
  | none => false

/-- The per-group body (src/main.rs:342-367): the group gain is the minimum
of the members' `run_model` results (`reduce(f32::min)`, `unwrap` panics on
an empty group); on a changed gain every member's volume is written; the
`--max-reduction` debug threshold is checked last.  Returns the updated
groups, the volume writes in order, and the `all_nominal` flag; an error
carries the writes already performed. -/
def runGroups (G : LoopGlobals α) (buf : List Int) (rate : α) (onceNominal : Bool) :
    List (Nat × SpeakerGroup α) →
    Except (LFatal × List (Write α)) (List (Nat × SpeakerGroup α) × List (Write α) × Bool)
  | [] => .ok ([], [], true)
  | (idx, gr) :: rest =>
    match runSpeakers buf rate gr.speakers with
    | .error e => .error (.model e, [])
    | .ok (sps', gains) =>
      match gains with
      | [] => .error (.emptyGroup, [])
      | g0 :: gs =>
        let gain := gs.foldl min g0
        let ws := groupWrites sps' gain gr.gain
        let gr' : SpeakerGroup α := { speakers := sps', gain := newGain gain gr.gain }
        if thresholdHit G.maxReduction onceNominal gain then .error (.threshold, ws)
        else
          match runGroups G buf rate onceNominal rest with
          | .error (f, w) => .error (f, ws ++ w)
          | .ok (rest', w, allN) =>
            .ok ((idx, gr') :: rest', ws ++ w,
                 (if gain = 0 then true else false) && allN)

/-- The tail of an iteration after the scheduling-gap handling
(src/main.rs:334-373): blackbox snapshot and push, the per-group model runs
and volume writes, the `once_nominal` update, and finally the unlock
sentinel rewrite. -/
def iterTail (G : LoopGlobals α) (st : LoopSt α) (rate' : Int) (bufRead : List Int)
    (groups1 : List (Nat × SpeakerGroup α)) (bb2 : Option (List (Block α))) :
    IterOut α :=
  let bbRes : Except LFatal (Option (List (Block α))) :=
    match bb2 with
    | none => .ok none
    | some blocks =>
      (snapshot groups1).map
        (fun gst => some (bbPush blocks ⟨rate', bufRead, gst⟩))
  match bbRes with
  | .error f => .fatal f []
  | .ok bb3 =>
    match runGroups G bufRead ((rate' : Int) : α) st.onceNominal groups1 with
    | .error (f, w) => .fatal f w
    | .ok (groups2, w, allN) =>
      .next { sampleRate := rate', groups := groups2, blackbox := bb3,
              onceNominal := st.onceNominal || allN }
            (w ++ [.intWrite "Speaker Volume Unlock" UNLOCK_MAGIC])

/-- The body of an iteration after a successful `readi` of `read` frames
(src/main.rs:297-373): signal check, sample-rate knob handling, the `dt`
assert, the four-period catchup test, then `iterTail`. -/
def loopIterRead (G : LoopGlobals α) (expf : α → α) (st : LoopSt α)
    (inp : IterIn α) (read : Nat) : IterOut α :=
  if inp.sigquitAfter then .fatal .sigquit []
  else
    let bufRead := inp.buf.take (read * G.channels)
    let rate' := if inp.curRate ≠ 0 ∧ inp.curRate ≠ st.sampleRate
                 then inp.curRate else st.sampleRate
    let bb1 := if inp.curRate ≠ 0 ∧ inp.curRate ≠ st.sampleRate
               then st.blackbox.map (fun _ => ([] : List (Block α)))
               else st.blackbox
    if rate' = 0 then .fatal .invalidRate []
    else if ¬ (0 < inp.dt) then .fatal .dtAssert []
    else
      let pt : α := (G.period : α) / ((rate' : Int) : α)
      if 4 * pt < inp.dt then
        iterTail G st rate' bufRead (skipGroups expf (inp.dt - pt) st.groups)
          (bb1.map (fun _ => []))
      else iterTail G st rate' bufRead st.groups bb1

/-- One iteration of the supervisor loop (src/main.rs:251-374). -/
def loopIter (G : LoopGlobals α) (expf : α → α) (st : LoopSt α) (inp : IterIn α) :
    IterOut α :=
  if inp.sigquit0 then .fatal .sigquit []
  else
    match inp.readRes with
    | .err sq estr =>
      if sq then .fatal .sigquit []
      else if estr then .again []
      else .fatal .readErr []
    | .ok read => loopIterRead G expf st inp read

/-- The two `assert!`s after speaker construction (src/main.rs:202-209):
the group sizes sum to the speaker count, and `2 * #speakers ≤ channels`.
`ks` is the list of the speakers' group indices in construction order. -/
def insertGroup : List (Nat × Nat) → Nat → List (Nat × Nat)
  | [], k => [(k, 1)]
  | (a, n) :: rest, k =>
    if k = a then (a, n + 1) :: rest
    else if k < a then (k, 1) :: (a, n) :: rest
    else (a, n) :: insertGroup rest k

/-- Group sizes keyed by group index, as the `BTreeMap` build in
src/main.rs:190-200 produces them. -/
def buildGroups (ks : List Nat) : List (Nat × Nat) :=
  ks.foldl insertGroup []

/-- The startup assertions of src/main.rs:202-209 as a boolean check. -/
def startupChecks (ks : List Nat) (channels : Nat) : Bool :=
  (((buildGroups ks).map Prod.snd).sum == ks.length) &&
    Nat.ble (2 * ks.length) channels

/-- First index in `0..=m` with no group, used to name the panic site of the
blackbox snapshot. -/
def firstMissing (groups : List (Nat × SpeakerGroup α)) (m : Nat) : Nat :=
  (((List.range (m + 1)).find? (fun i => (lookupGroup groups i).isNone)).getD 0)

/-- Either temperature strictly above `t_limit + t_headroom` (the panic
condition of src/types.rs:348-359). -/
def exceeds (cfg : SpeakerCfg α) (t : α × α) : Prop :=
  cfg.tLimit + cfg.tHeadroom < t.1 ∨ cfg.tLimit + cfg.tHeadroom < t.2

/-! ## Concrete fixtures used by witnesses and counterexamples -/

/-- A small rational speaker configuration used for concrete runs. -/
def cfgQ : SpeakerCfg ℚ :=
  { tauCoil := 1, tauMagnet := 1, trCoil := 1, trMagnet := 1, tLimit := 100,
    tHeadroom := 10, zNominal := 8, isScale := 1, vsScale := 1, isChan := 1,
    vsChan := 0, channels := 2, tAmbient := 20, tWindow := 20, tHysteresis := 5 }

/-- A concrete speaker state for `cfgQ`. -/
def s0Q : SpeakerState ℚ :=
  { tCoil := 30, tMagnet := 25, tCoilHyst := 0, tMagnetHyst := 0, minGain := -10,
    gain := 0 }

/-- The state `run_model` produces from `s0Q` on one zero sample at 1 Hz. -/
def s1Q : SpeakerState ℚ :=
  { tCoil := 55/2, tMagnet := 45/2, tCoilHyst := 55/2, tMagnetHyst := 45/2,
    minGain := -10, gain := 0 }

/-- Loop globals for concrete runs: two channels, one-sample periods. -/
def Gq : LoopGlobals ℚ := { channels := 2, period := 1, maxReduction := none }

/-- A concrete speaker bundle. -/
def spQ : Sp ℚ := { name := "Left", cfg := cfgQ, st := s0Q }

/-- A concrete loop state: retained sample rate 2 Hz, one group, blackbox
disabled. -/
def stQ : LoopSt ℚ :=
  { sampleRate := 2, groups := [(0, { speakers := [spQ], gain := 0 })],
    blackbox := none, onceNominal := false }

/-- A concrete iteration input whose sample-rate knob reads 0 while the
retained rate is nonzero. -/
def inpQ : IterIn ℚ :=
  { sigquit0 := false, readRes := .ok 1, sigquitAfter := false,
    buf := [0, 0], curRate := 0, dt := 1 }

/-- A concrete iteration input whose knob reports a new nonzero rate. -/
def inpQ3 : IterIn ℚ :=
  { sigquit0 := false, readRes := .ok 1, sigquitAfter := false,
    buf := [0, 0], curRate := 3, dt := 1 }

/-- A loop state whose group indices are `{0, 2}` — not contiguous — with the
blackbox enabled. -/
def stW10 : LoopSt ℚ :=
  { sampleRate := 2,
    groups := [(0, { speakers := [spQ], gain := 0 }),
               (2, { speakers := [spQ], gain := 0 })],
    blackbox := some [], onceNominal := false }

/-- The speaker configuration of the C3 counterexample, over `ℝ`: the
construction formula gives `min_gain = -10` exactly. -/
def cfgC3 : SpeakerCfg ℝ :=
  { tauCoil := 1, tauMagnet := 3, trCoil := 1000, trMagnet := 2000, tLimit := 100,
    tHeadroom := 10, zNominal := 8, isScale := 2, vsScale := 2, isChan := 1,
    vsChan := 0, channels := 2, tAmbient := 25, tWindow := 20, tHysteresis := 5 }

/-- A concrete blackbox block. -/
def blkQ : Block ℚ := { sampleRate := 48000, data := [], state := [] }

/-- A concrete nonempty blackbox ring. -/
def bbQ7 : Blackbox ℚ :=
  { machine := "apple,j314", channels := 2, tAmbient := 25, tSafeMax := 85,
    tHysteresis := 5,
    blocks := [{ sampleRate := 48000, data := [1, 2], state := [[s0Q]] }] }

/-! ## Lemmas about the sample loop of `run_model` -/

theorem runSamples_append (cfg : SpeakerCfg α) (drv : String) (aC aM : α)
    (buf : List Int) (l l' : List Nat) (acc : (α × α) × α) :
    runSamples cfg drv aC aM buf (l ++ l') acc =
      match runSamples cfg drv aC aM buf l acc with
      | .error e => .error e
      | .ok acc' => runSamples cfg drv aC aM buf l' acc' := by
  induction l generalizing acc with
  | nil => simp [runSamples]
  | cons k ks ih =>
    obtain ⟨t, ps⟩ := acc
    simp only [List.cons_append, runSamples]
    split
    · rfl
    · split
      · rfl
      · exact ih _

theorem runSamples_ok_or (cfg : SpeakerCfg α) (drv : String) (aC aM : α)
    (buf : List Int) (ks : List Nat) (t0 : α × α) (p0 : α) :
    (∃ e, runSamples cfg drv aC aM buf ks (t0, p0) = .error e) ∨
      runSamples cfg drv aC aM buf ks (t0, p0) =
        .ok (foldTemps cfg aC aM buf t0 ks, p0 + (ks.map (samplePwr cfg buf)).sum) := by
  induction ks generalizing t0 p0 with
  | nil => right; simp [runSamples, foldTemps]
  | cons k ks ih =>
    simp only [runSamples]
    split
    · exact .inl ⟨_, rfl⟩
    · split
      · exact .inl ⟨_, rfl⟩
      · rcases ih (tempStep cfg aC aM t0 (samplePwr cfg buf k)) (p0 + samplePwr cfg buf k)
          with h | h
        · exact .inl h
        · right
          rw [h]
          simp [foldTemps, List.foldl_cons, add_assoc]

theorem runSamples_ok_elim (cfg : SpeakerCfg α) (drv : String) (aC aM : α)
    (buf : List Int) (ks : List Nat) (t0 : α × α) (p0 : α) (tf : α × α) (pf : α)
    (h : runSamples cfg drv aC aM buf ks (t0, p0) = .ok (tf, pf)) :
    tf = foldTemps cfg aC aM buf t0 ks ∧
      pf = p0 + (ks.map (samplePwr cfg buf)).sum := by
  rcases runSamples_ok_or cfg drv aC aM buf ks t0 p0 with ⟨e, he⟩ | hok
  · rw [he] at h
    exact absurd h (by simp)
  · rw [hok] at h
    injection h with h'
    obtain ⟨h1, h2⟩ := Prod.mk.injEq .. ▸ h'
    exact ⟨h1.symm, h2.symm⟩

theorem foldTemps_range_succ (cfg : SpeakerCfg α) (aC aM : α) (buf : List Int)
    (t0 : α × α) (N : Nat) :
    foldTemps cfg aC aM buf t0 (List.range (N + 1)) =
      tempStep cfg aC aM (foldTemps cfg aC aM buf t0 (List.range N))
        (samplePwr cfg buf N) := by
  simp [foldTemps, List.range_succ, List.foldl_append]

theorem runSamples_singleton_err (cfg : SpeakerCfg α) (drv : String) (aC aM : α)
    (buf : List Int) (k : Nat) (t : α × α) (ps : α)
    (hx : exceeds cfg (tempStep cfg aC aM t (samplePwr cfg buf k))) :
    ∃ e, runSamples cfg drv aC aM buf [k] (t, ps) = .error e := by
  rcases hx with hx | hx
  · simp only [runSamples]
    rw [if_pos hx]
    exact ⟨_, rfl⟩
  · simp only [runSamples]
    by_cases h1 : cfg.tLimit + cfg.tHeadroom < (tempStep cfg aC aM t (samplePwr cfg buf k)).1
    · rw [if_pos h1]
      exact ⟨_, rfl⟩
    · rw [if_neg h1, if_pos hx]
      exact ⟨_, rfl⟩

theorem runSamples_singleton_ok (cfg : SpeakerCfg α) (drv : String) (aC aM : α)
    (buf : List Int) (k : Nat) (t : α × α) (ps : α)
    (hx : ¬ exceeds cfg (tempStep cfg aC aM t (samplePwr cfg buf k))) :
    runSamples cfg drv aC aM buf [k] (t, ps) =
      .ok (tempStep cfg aC aM t (samplePwr cfg buf k), ps + samplePwr cfg buf k) := by
  simp only [exceeds, not_or, not_lt] at hx
  simp only [runSamples]
  rw [if_neg (not_lt.mpr hx.1), if_neg (not_lt.mpr hx.2)]

theorem runSamples_err_iff (cfg : SpeakerCfg α) (drv : String) (aC aM : α)
    (buf : List Int) (N : Nat) (t0 : α × α) (p0 : α) :
    (∃ e, runSamples cfg drv aC aM buf (List.range N) (t0, p0) = .error e) ↔
      ∃ k, k < N ∧ exceeds cfg (foldTemps cfg aC aM buf t0 (List.range (k + 1))) := by
  induction N with
  | zero =>
    constructor
    · rintro ⟨e, he⟩
      simp [List.range_zero, runSamples] at he
    · rintro ⟨k, hk, _⟩
      exact absurd hk (Nat.not_lt_zero k)
  | succ N ih =>
    constructor
    · rintro ⟨e, he⟩
      rw [List.range_succ, runSamples_append] at he
      rcases hN : runSamples cfg drv aC aM buf (List.range N) (t0, p0) with e' | acc'
      · obtain ⟨k, hk, hx⟩ := ih.mp ⟨e', hN⟩
        exact ⟨k, Nat.lt_succ_of_lt hk, hx⟩
      · rw [hN] at he
        dsimp only at he
        obtain ⟨tN, pN⟩ := acc'
        obtain ⟨hT, _⟩ := runSamples_ok_elim cfg drv aC aM buf (List.range N) t0 p0 tN pN hN
        by_cases hx : exceeds cfg (tempStep cfg aC aM tN (samplePwr cfg buf N))
        · refine ⟨N, Nat.lt_succ_self N, ?_⟩
          rw [foldTemps_range_succ, ← hT]
          exact hx
        · rw [runSamples_singleton_ok cfg drv aC aM buf N tN pN hx] at he
          exact absurd he (by simp)
    · rintro ⟨k, hk, hx⟩
      rw [List.range_succ, runSamples_append]
      rcases hN : runSamples cfg drv aC aM buf (List.range N) (t0, p0) with e' | acc'
      · exact ⟨e', rfl⟩
      · obtain ⟨tN, pN⟩ := acc'
        obtain ⟨hT, _⟩ := runSamples_ok_elim cfg drv aC aM buf (List.range N) t0 p0 tN pN hN
        have hkN : k = N := by
          by_contra hne
          have hkN' : k < N := by omega
          exact absurd (ih.mpr ⟨k, hkN', hx⟩)
            (by rw [hN]; rintro ⟨e, he⟩; exact absurd he (by simp))
        subst hkN
        rw [foldTemps_range_succ, ← hT] at hx
        obtain ⟨e, he⟩ := runSamples_singleton_err cfg drv aC aM buf k tN pN hx
        exact ⟨e, he⟩

theorem runModel_ok_parts (drv : String) (cfg : SpeakerCfg α) (s : SpeakerState α)
    (buf : List Int) (rate : α) (s' : SpeakerState α) (g : α)
    (hok : runModel drv cfg s buf rate = .ok (s', g)) :
    ∃ T P, runSamples cfg drv (1 / rate / (cfg.tauCoil + 1 / rate))
        (1 / rate / (cfg.tauMagnet + 1 / rate)) buf
        (List.range (buf.length / cfg.channels)) ((s.tCoil, s.tMagnet), 0) = .ok (T, P) ∧
      s'.tCoil = T.1 ∧ s'.tMagnet = T.2 := by
  simp only [runModel] at hok
  rcases hN : runSamples cfg drv (1 / rate / (cfg.tauCoil + 1 / rate))
      (1 / rate / (cfg.tauMagnet + 1 / rate)) buf
      (List.range (buf.length / cfg.channels)) ((s.tCoil, s.tMagnet), 0) with e | TP
  · rw [hN] at hok
    exact absurd hok (by simp)
  · obtain ⟨T, P⟩ := TP
    rw [hN] at hok
    dsimp only at hok
    split_ifs at hok with hneg hsnap
    all_goals
      refine ⟨T, P, rfl, ?_⟩
      injection hok with h0
      injection h0 with hs hg
      subst hs
      exact ⟨rfl, rfl⟩

theorem runSamples_ok_bounds (cfg : SpeakerCfg α) (drv : String) (aC aM : α)
    (buf : List Int) (ks : List Nat) (t0 : α × α) (p0 : α) (T : α × α) (P : α)
    (h : runSamples cfg drv aC aM buf ks (t0, p0) = .ok (T, P))
    (h1 : t0.1 ≤ cfg.tLimit + cfg.tHeadroom)
    (h2 : t0.2 ≤ cfg.tLimit + cfg.tHeadroom) :
    T.1 ≤ cfg.tLimit + cfg.tHeadroom ∧ T.2 ≤ cfg.tLimit + cfg.tHeadroom := by
  induction ks generalizing t0 p0 with
  | nil =>
    simp only [runSamples] at h
    injection h with h0
    injection h0 with hT hP
    rw [← hT]
    exact ⟨h1, h2⟩
  | cons k ks ih =>
    simp only [runSamples] at h
    split_ifs at h with hx1 hx2
    exact ih _ _ h (not_lt.mp hx1) (not_lt.mp hx2)

/-! ## Lemmas about the supervisor loop embedding -/

theorem loopIter_ok_read (G : LoopGlobals α) (expf : α → α) (st : LoopSt α)
    (inp : IterIn α) (read : Nat) (hs0 : inp.sigquit0 = false)
    (hread : inp.readRes = .ok read) :
    loopIter G expf st inp = loopIterRead G expf st inp read := by
  unfold loopIter
  rw [if_neg (by simp [hs0]), hread]

theorem loopIterRead_eq (G : LoopGlobals α) (expf : α → α) (st : LoopSt α)
    (inp : IterIn α) (read : Nat) (hsa : inp.sigquitAfter = false)
    (hr : (if inp.curRate ≠ 0 ∧ inp.curRate ≠ st.sampleRate then inp.curRate
           else st.sampleRate) ≠ 0)
    (hdt : 0 < inp.dt) :
    loopIterRead G expf st inp read =
      (let rate' := if inp.curRate ≠ 0 ∧ inp.curRate ≠ st.sampleRate then inp.curRate
                    else st.sampleRate
       let bufRead := inp.buf.take (read * G.channels)
       let bb1 := if inp.curRate ≠ 0 ∧ inp.curRate ≠ st.sampleRate
                  then st.blackbox.map (fun _ => ([] : List (Block α)))
                  else st.blackbox
       let pt : α := (G.period : α) / ((rate' : Int) : α)
       if 4 * pt < inp.dt then
         iterTail G st rate' bufRead (skipGroups expf (inp.dt - pt) st.groups)
           (bb1.map (fun _ => []))
       else iterTail G st rate' bufRead st.groups bb1) := by
  unfold loopIterRead
  rw [if_neg (by simp [hsa]), if_neg hr, if_neg (by simpa using hdt)]

theorem no_intWrite_volume_map (l : List (Sp α)) (g : α) (e : String) (v : Int) :
    Write.intWrite e v ∉ l.map (fun s => Write.volume s.name g) := by
  simp [List.mem_map]

theorem no_intWrite_groupWrites (sps : List (Sp α)) (gain old : α) (e : String) (v : Int) :
    Write.intWrite e v ∉ groupWrites sps gain old := by
  unfold groupWrites
  split_ifs
  · exact no_intWrite_volume_map _ _ _ _
  · simp

theorem runGroups_writes_volume (G : LoopGlobals α) (buf : List Int) (rate : α)
    (onceNominal : Bool) (gs : List (Nat × SpeakerGroup α)) :
    (∀ f w, runGroups G buf rate onceNominal gs = .error (f, w) →
        ∀ e v, Write.intWrite e v ∉ w) ∧
      (∀ out, runGroups G buf rate onceNominal gs = .ok out →
        ∀ e v, Write.intWrite e v ∉ out.2.1) := by
  induction gs with
  | nil =>
    constructor
    · intro f w h
      simp [runGroups] at h
    · intro out h e v
      simp only [runGroups] at h
      injection h with h0
      rw [← h0]
      simp
  | cons hd tl ih =>
    obtain ⟨idx, gr⟩ := hd
    constructor
    · intro f w h e v
      simp only [runGroups] at h
      rcases hS : runSpeakers buf rate gr.speakers with eS | out1
      · rw [hS] at h
        injection h with h0
        injection h0 with h1 h2
        rw [← h2]
        simp
      · rw [hS] at h
        obtain ⟨sps', gains⟩ := out1
        dsimp only at h
        rcases gains with _ | ⟨g0, gs'⟩
        · injection h with h0
          injection h0 with h1 h2
          rw [← h2]
          simp
        · dsimp only at h
          rcases hB : thresholdHit G.maxReduction onceNominal (gs'.foldl min g0) with _ | _
          · rw [hB] at h
            simp only [Bool.false_eq_true, if_false] at h
            rcases hR : runGroups G buf rate onceNominal tl with ⟨f', w'⟩ | out'
            · rw [hR] at h
              dsimp only at h
              injection h with h0
              injection h0 with h1 h2
              rw [← h2]
              intro hmem
              rcases List.mem_append.mp hmem with hm | hm
              · exact no_intWrite_groupWrites _ _ _ _ _ hm
              · exact ih.1 f' w' hR e v hm
            · rw [hR] at h
              obtain ⟨rest', w', allN⟩ := out'
              exact absurd h (by simp)
          · rw [hB] at h
            simp only [if_true] at h
            injection h with h0
            injection h0 with h1 h2
            rw [← h2]
            exact no_intWrite_groupWrites _ _ _ _ _
    · intro out h e v
      simp only [runGroups] at h
      rcases hS : runSpeakers buf rate gr.speakers with eS | out1
      · rw [hS] at h
        exact absurd h (by simp)
      · rw [hS] at h
        obtain ⟨sps', gains⟩ := out1
        dsimp only at h
        rcases gains with _ | ⟨g0, gs'⟩
        · exact absurd h (by simp)
        · dsimp only at h
          rcases hB : thresholdHit G.maxReduction onceNominal (gs'.foldl min g0) with _ | _
          · rw [hB] at h
            simp only [Bool.false_eq_true, if_false] at h
            rcases hR : runGroups G buf rate onceNominal tl with ⟨f', w'⟩ | out'
            · rw [hR] at h
              exact absurd h (by simp)
            · rw [hR] at h
              obtain ⟨rest', w', allN⟩ := out'
              dsimp only at h
              injection h with h0
              rw [← h0]
              intro hmem
              dsimp only at hmem
              rcases List.mem_append.mp hmem with hm | hm
              · exact no_intWrite_groupWrites _ _ _ _ _ hm
              · exact ih.2 _ hR e v hm
          · rw [hB] at h
            simp only [if_true] at h
            exact absurd h (by simp)

theorem iterTail_writes (G : LoopGlobals α) (st : LoopSt α) (rate' : Int)
    (bufRead : List Int) (groups1 : List (Nat × SpeakerGroup α))
    (bb2 : Option (List (Block α))) :
    (∀ f w, iterTail G st rate' bufRead groups1 bb2 = .fatal f w →
        ∀ v, Write.intWrite "Speaker Volume Unlock" v ∉ w) ∧
      (∀ st' w, iterTail G st rate' bufRead groups1 bb2 = .next st' w →
        w.getLast? = some (.intWrite "Speaker Volume Unlock" UNLOCK_MAGIC)) := by
  have hgrp : ∀ bb3,
      (∀ f w, (match runGroups G bufRead ((rate' : Int) : α) st.onceNominal groups1 with
        | .error (f, w) => IterOut.fatal f w
        | .ok (groups2, w, allN) =>
          IterOut.next { sampleRate := rate', groups := groups2, blackbox := bb3,
                         onceNominal := st.onceNominal || allN }
            (w ++ [Write.intWrite "Speaker Volume Unlock" UNLOCK_MAGIC])) = .fatal f w →
          ∀ v, Write.intWrite "Speaker Volume Unlock" v ∉ w) ∧
      (∀ st' w, (match runGroups G bufRead ((rate' : Int) : α) st.onceNominal groups1 with
        | .error (f, w) => IterOut.fatal f w
        | .ok (groups2, w, allN) =>
          IterOut.next { sampleRate := rate', groups := groups2, blackbox := bb3,
                         onceNominal := st.onceNominal || allN }
            (w ++ [Write.intWrite "Speaker Volume Unlock" UNLOCK_MAGIC])) = .next st' w →
        w.getLast? = some (.intWrite "Speaker Volume Unlock" UNLOCK_MAGIC)) := by
    intro bb3
    rcases hR : runGroups G bufRead ((rate' : Int) : α) st.onceNominal groups1
        with ⟨f', w'⟩ | ⟨groups2, w', allN⟩
    · constructor
      · intro f w h v
        dsimp only at h
        injection h with h1 h2
        rw [← h2]
        exact (runGroups_writes_volume G bufRead _ st.onceNominal groups1).1 f' w' hR _ v
      · intro st' w h
        exact absurd h (by simp)
    · constructor
      · intro f w h v
        exact absurd h (by simp)
      · intro st' w h
        dsimp only at h
        injection h with h1 h2
        rw [← h2]
        exact List.getLast?_concat _
  unfold iterTail
  rcases bb2 with _ | blocks
  · exact hgrp none
  · dsimp only
    rcases hsnap : snapshot groups1 with f | gst
    · constructor
      · intro f' w h v
        dsimp only [Except.map] at h
        injection h with h1 h2
        rw [← h2]
        simp
      · intro st' w h
        dsimp only [Except.map] at h
        exact absurd h (by simp)
    · dsimp only [Except.map]
      exact hgrp _

theorem loopIter_cases (G : LoopGlobals α) (expf : α → α) (st : LoopSt α)
    (inp : IterIn α) :
    loopIter G expf st inp = .fatal .sigquit [] ∨
    loopIter G expf st inp = .again [] ∨
    loopIter G expf st inp = .fatal .readErr [] ∨
    loopIter G expf st inp = .fatal .invalidRate [] ∨
    loopIter G expf st inp = .fatal .dtAssert [] ∨
    ∃ rate' bufRead groups1 bb2,
      loopIter G expf st inp = iterTail G st rate' bufRead groups1 bb2 := by
  by_cases h0 : inp.sigquit0 = true
  · left
    unfold loopIter
    rw [if_pos h0]
  · have h0' : inp.sigquit0 = false := by simpa using h0
    rcases hRR : inp.readRes with read | ⟨sq, estr⟩
    · rw [loopIter_ok_read G expf st inp read h0' hRR]
      unfold loopIterRead
      by_cases hsa : inp.sigquitAfter = true
      · left
        rw [if_pos hsa]
      · rw [if_neg hsa]
        dsimp only
        by_cases hr : (if inp.curRate ≠ 0 ∧ inp.curRate ≠ st.sampleRate then inp.curRate
            else st.sampleRate) = 0
        · right; right; right; left
          rw [if_pos hr]
        · rw [if_neg hr]
          by_cases hdt : ¬ 0 < inp.dt
          · right; right; right; right; left
            rw [if_pos hdt]
          · rw [if_neg hdt]
            by_cases h4 : 4 * ((G.period : α) /
                (((if inp.curRate ≠ 0 ∧ inp.curRate ≠ st.sampleRate then inp.curRate
                   else st.sampleRate) : Int) : α)) < inp.dt
            · right; right; right; right; right
              rw [if_pos h4]
              exact ⟨_, _, _, _, rfl⟩
            · right; right; right; right; right
              rw [if_neg h4]
              exact ⟨_, _, _, _, rfl⟩
    · unfold loopIter
      rw [if_neg (by simp [h0']), hRR]
      dsimp only
      by_cases hsq : sq = true
      · left
        rw [if_pos hsq]
      · rw [if_neg hsq]
        by_cases hestr : estr = true
        · right; left
          rw [if_pos hestr]
        · right; right; left
          rw [if_neg hestr]

theorem gatherStates_err_kinds (groups : List (Nat × SpeakerGroup α)) (is' : List Nat) :
    ∀ f, gatherStates groups is' = .error f → ∃ i, f = .missingGroup i := by
  induction is' with
  | nil =>
    intro f h
    simp [gatherStates] at h
  | cons i is ih =>
    intro f h
    simp only [gatherStates] at h
    rcases hL : lookupGroup groups i with _ | gr
    · rw [hL] at h
      injection h with h0
      exact ⟨i, h0.symm⟩
    · rw [hL] at h
      dsimp only at h
      rcases hG : gatherStates groups is with f' | v
      · rw [hG] at h
        dsimp only [Except.map] at h
        injection h with h0
        obtain ⟨j, hj⟩ := ih f' hG
        exact ⟨j, h0 ▸ hj⟩
      · rw [hG] at h
        exact absurd h (by simp [Except.map])

theorem snapshot_err_kinds (groups : List (Nat × SpeakerGroup α)) (f : LFatal)
    (h : snapshot groups = .error f) :
    f = .emptyGroups ∨ ∃ i, f = .missingGroup i := by
  unfold snapshot at h
  rcases hM : (groups.map Prod.fst).max? with _ | m
  · rw [hM] at h
    injection h with h0
    exact .inl h0.symm
  · rw [hM] at h
    exact .inr (gatherStates_err_kinds groups (List.range (m + 1)) f h)

theorem runGroups_err_kinds (G : LoopGlobals α) (buf : List Int) (rate : α)
    (onceNominal : Bool) (gs : List (Nat × SpeakerGroup α)) :
    ∀ f w, runGroups G buf rate onceNominal gs = .error (f, w) →
      f = .emptyGroup ∨ f = .threshold ∨ ∃ e, f = .model e := by
  induction gs with
  | nil =>
    intro f w h
    simp [runGroups] at h
  | cons hd tl ih =>
    obtain ⟨idx, gr⟩ := hd
    intro f w h
    simp only [runGroups] at h
    rcases hS : runSpeakers buf rate gr.speakers with eS | out1
    · rw [hS] at h
      injection h with h0
      injection h0 with h1 h2
      exact .inr (.inr ⟨eS, h1.symm⟩)
    · rw [hS] at h
      obtain ⟨sps', gains⟩ := out1
      dsimp only at h
      rcases gains with _ | ⟨g0, gs'⟩
      · injection h with h0
        injection h0 with h1 h2
        exact .inl h1.symm
      · dsimp only at h
        rcases hB : thresholdHit G.maxReduction onceNominal (gs'.foldl min g0) with _ | _
        · rw [hB] at h
          simp only [Bool.false_eq_true, if_false] at h
          rcases hR : runGroups G buf rate onceNominal tl with ⟨f', w'⟩ | out'
          · rw [hR] at h
            dsimp only at h
            injection h with h0
            injection h0 with h1 h2
            exact h1 ▸ ih f' w' hR
          · rw [hR] at h
            obtain ⟨rest', w', allN⟩ := out'
            exact absurd h (by simp)
        · rw [hB] at h
          simp only [if_true] at h
          injection h with h0
          injection h0 with h1 h2
          exact .inr (.inl h1.symm)

theorem iterTail_fatal_kinds (G : LoopGlobals α) (st : LoopSt α) (rate' : Int)
    (bufRead : List Int) (groups1 : List (Nat × SpeakerGroup α))
    (bb2 : Option (List (Block α))) (f : LFatal) (w : List (Write α))
    (h : iterTail G st rate' bufRead groups1 bb2 = .fatal f w) :
    f ≠ .invalidRate ∧ f ≠ .sigquit ∧ f ≠ .readErr ∧ f ≠ .dtAssert := by
  have core : ∀ bb3 f w,
      (match runGroups G bufRead ((rate' : Int) : α) st.onceNominal groups1 with
        | .error (f, w) => IterOut.fatal f w
        | .ok (groups2, w, allN) =>
          IterOut.next { sampleRate := rate', groups := groups2, blackbox := bb3,
                         onceNominal := st.onceNominal || allN }
            (w ++ [Write.intWrite "Speaker Volume Unlock" UNLOCK_MAGIC])) = .fatal f w →
      f ≠ .invalidRate ∧ f ≠ .sigquit ∧ f ≠ .readErr ∧ f ≠ .dtAssert := by
    intro bb3 f' w' h'
    rcases hR : runGroups G bufRead ((rate' : Int) : α) st.onceNominal groups1
        with ⟨f'', w''⟩ | ⟨groups2, ww, allN⟩
    · rw [hR] at h'
      dsimp only at h'
      injection h' with h1 h2
      rcases h1 ▸ runGroups_err_kinds G bufRead _ st.onceNominal groups1 f'' w'' hR
          with hk | hk | ⟨e, hk⟩ <;> subst hk <;> refine ⟨?_, ?_, ?_, ?_⟩ <;> intro hc <;>
        exact absurd hc (by simp)
    · rw [hR] at h'
      exact absurd h' (by simp)
  unfold iterTail at h
  rcases bb2 with _ | blocks
  · exact core none f w h
  · dsimp only at h
    rcases hsnap : snapshot groups1 with fs | gst
    · rw [hsnap] at h
      dsimp only [Except.map] at h
      injection h with h1 h2
      rcases h1 ▸ snapshot_err_kinds groups1 fs hsnap with hk | ⟨i, hk⟩ <;> subst hk <;>
        refine ⟨?_, ?_, ?_, ?_⟩ <;> intro hc <;> exact absurd hc (by simp)
    · rw [hsnap] at h
      dsimp only [Except.map] at h
      exact core _ f w h

theorem rate_ite_eq_zero (cur stored : Int) :
    ((if cur ≠ 0 ∧ cur ≠ stored then cur else stored) = 0) ↔ (cur = 0 ∧ stored = 0) := by
  split_ifs with h
  · constructor
    · intro hh
      exact absurd hh h.1
    · intro hh
      exact absurd hh.1 h.1
  · push_neg at h
    constructor
    · intro hh
      by_cases hc : cur = 0
      · exact ⟨hc, hh⟩
      · exact ⟨(h hc).trans hh, hh⟩
    · intro hh
      exact hh.2

theorem gatherStates_err_of_find (groups : List (Nat × SpeakerGroup α)) (is' : List Nat)
    (i0 : Nat) (h : is'.find? (fun i => (lookupGroup groups i).isNone) = some i0) :
    gatherStates groups is' = .error (.missingGroup i0) := by
  induction is' with
  | nil => simp at h
  | cons i is ih =>
    rw [List.find?_cons] at h
    rcases hL : lookupGroup groups i with _ | gr
    · simp only [hL, Option.isNone_none] at h
      injection h with h0
      subst h0
      simp only [gatherStates]
      rw [hL]
    · simp only [hL, Option.isNone_some] at h
      simp only [gatherStates]
      rw [hL]
      dsimp only
      rw [ih h]
      rfl

theorem keys_skipGroups (expf : α → α) (t : α) (gs : List (Nat × SpeakerGroup α)) :
    (skipGroups expf t gs).map Prod.fst = gs.map Prod.fst := by
  unfold skipGroups
  rw [List.map_map]
  rfl

theorem lookupGroup_skipGroups_isNone (expf : α → α) (t : α)
    (gs : List (Nat × SpeakerGroup α)) (i : Nat) :
    (lookupGroup (skipGroups expf t gs) i).isNone = (lookupGroup gs i).isNone := by
  unfold lookupGroup skipGroups
  induction gs with
  | nil => rfl
  | cons hd tl ih =>
    obtain ⟨k, gr⟩ := hd
    simp only [List.map_cons, List.find?]
    by_cases hk : (k == i) = true
    · rw [hk]
      rfl
    · simp only [Bool.not_eq_true] at hk
      rw [hk]
      exact ih

theorem snapshot_err_of_find (groups : List (Nat × SpeakerGroup α)) (m i0 : Nat)
    (hM : (groups.map Prod.fst).max? = some m)
    (hF : (List.range (m + 1)).find? (fun i => (lookupGroup groups i).isNone) = some i0) :
    snapshot groups = .error (.missingGroup i0) := by
  unfold snapshot
  rw [hM]
  exact gatherStates_err_of_find groups (List.range (m + 1)) i0 hF

theorem iterTail_snapshot_fatal (G : LoopGlobals α) (st : LoopSt α) (rate' : Int)
    (bufRead : List Int) (groups1 : List (Nat × SpeakerGroup α))
    (blocks : List (Block α)) (f : LFatal) (hsnap : snapshot groups1 = .error f) :
    iterTail G st rate' bufRead groups1 (some blocks) = .fatal f [] := by
  unfold iterTail
  rw [hsnap]
  rfl

theorem bbEvict_length_lt : ∀ (n : Nat) (l : List (Block α)), l.length ≤ n →
    (bbEvict l).length < MAX_BLOCKS := by
  intro n
  induction n with
  | zero =>
    intro l hl
    rw [bbEvict]
    rw [dif_neg (by simp [MAX_BLOCKS]; omega)]
    simp [MAX_BLOCKS]
    omega
  | succ n ih =>
    intro l hl
    rw [bbEvict]
    split_ifs with h
    · apply ih
      simp only [List.length_tail]
      omega
    · simp [MAX_BLOCKS] at h ⊢
      omega

theorem bbPush_length_le (l : List (Block α)) (b : Block α) :
    (bbPush l b).length ≤ MAX_BLOCKS := by
  unfold bbPush
  rw [List.length_append]
  have := bbEvict_length_lt l.length l (le_refl _)
  simp only [List.length_cons, List.length_nil]
  omega

theorem bbApply_length_le (l : List (Block α)) (op : BBOp α) :
    (bbApply l op).length ≤ MAX_BLOCKS := by
  rcases op with b | _
  · exact bbPush_length_le l b
  · simp [bbApply, bbReset, MAX_BLOCKS]

theorem bbPush_at_capacity (l : List (Block α)) (b : Block α)
    (h : l.length = MAX_BLOCKS) :
    bbPush l b = l.tail ++ [b] := by
  unfold bbPush
  rw [bbEvict, dif_pos (le_of_eq h.symm)]
  rw [bbEvict, dif_neg (by simp only [List.length_tail, h, MAX_BLOCKS]; omega)]


/-! ## Concrete evaluation helpers -/

theorem runModel_eval_Q : runModel "Left" cfgQ s0Q [0, 0] (1 : ℚ) = .ok (s1Q, 0) := by
  norm_num [runModel, runSamples, tempStep, samplePwr, sampleV, sampleI, cfgQ, s0Q,
    s1Q, List.range_succ]

theorem speakerNewState_cfgC3_eval :
    speakerNewState cfgC3 false 0 =
      { tCoil := 100, tMagnet := 75, tCoilHyst := 0, tMagnetHyst := 0,
        minGain := -10, gain := 0 } := by
  simp only [speakerNewState, cfgC3]
  norm_num
  rw [one_div, Real.logb_inv, Real.logb_self_eq_one (by norm_num)]
  norm_num

/-! ## Claims -/

/-- C1: for every capture frame (a buffer whose length is a multiple of
`channels`), every `sample_rate > 0` and every completing run, `run_model`
updates `(t_coil, t_magnet)` by folding the per-sample update over the
samples in order: with `v = raw[k·channels+vs_chan]/32768·vs_scale`,
`i = raw[k·channels+is_chan]/32768·is_scale`, `p = v·i`, `Δt = 1/sample_rate`,
`α_c = Δt/(τ_coil+Δt)` and `α_m = Δt/(τ_magnet+Δt)`, both targets are
computed from the pre-update state and then
`t_coil ← α_c·(t_magnet + p·tr_coil) + (1−α_c)·t_coil` and
`t_magnet ← α_m·(t_ambient + p·tr_magnet) + (1−α_m)·t_magnet`. -/
theorem C1_run_model_per_sample_fold (drv : String) (cfg : SpeakerCfg α)
    (s : SpeakerState α) (buf : List Int) (rate : α) (s' : SpeakerState α) (g : α)
    (hch : cfg.channels ≠ 0) (hdvd : cfg.channels ∣ buf.length) (hrate : 0 < rate)
    (hok : runModel drv cfg s buf rate = .ok (s', g)) :
    (s'.tCoil, s'.tMagnet) =
      (List.range (buf.length / cfg.channels)).foldl
        (fun t k =>
          let v := ((buf.getD (k * cfg.channels + cfg.vsChan) 0 : Int) : α) / 32768 *
            cfg.vsScale
          let i := ((buf.getD (k * cfg.channels + cfg.isChan) 0 : Int) : α) / 32768 *
            cfg.isScale
          let p := v * i
          let dt := 1 / rate
          let aC := dt / (cfg.tauCoil + dt)
          let aM := dt / (cfg.tauMagnet + dt)
          (aC * (t.2 + p * cfg.trCoil) + (1 - aC) * t.1,
           aM * (cfg.tAmbient + p * cfg.trMagnet) + (1 - aM) * t.2))
        (s.tCoil, s.tMagnet) := by
  obtain ⟨T, P, hN, hc, hm⟩ := runModel_ok_parts drv cfg s buf rate s' g hok
  obtain ⟨hT, _⟩ := runSamples_ok_elim cfg drv _ _ buf _ _ _ T P hN
  rw [hc, hm, ← Prod.mk.eta (p := T), hT]
  unfold foldTemps
  apply List.foldl_ext
  intro t k _
  simp only [tempStep, samplePwr, sampleV, sampleI]
  exact Prod.ext (by ring) (by ring)

/-- Witness for C1 at a concrete frame: one zero-valued stereo sample at
1 Hz starting from `s0Q`. -/
theorem C1_witness :
    cfgQ.channels ≠ 0 ∧ cfgQ.channels ∣ ([0, 0] : List Int).length ∧ (0 : ℚ) < 1 ∧
      runModel "Left" cfgQ s0Q [0, 0] (1 : ℚ) = .ok (s1Q, 0) ∧
      (s1Q.tCoil, s1Q.tMagnet) =
        (List.range (([0, 0] : List Int).length / cfgQ.channels)).foldl
          (fun t k =>
            let v := ((([0, 0] : List Int).getD (k * cfgQ.channels + cfgQ.vsChan) 0 :
              Int) : ℚ) / 32768 * cfgQ.vsScale
            let i := ((([0, 0] : List Int).getD (k * cfgQ.channels + cfgQ.isChan) 0 :
              Int) : ℚ) / 32768 * cfgQ.isScale
            let p := v * i
            let dt := 1 / (1 : ℚ)
            let aC := dt / (cfgQ.tauCoil + dt)
            let aM := dt / (cfgQ.tauMagnet + dt)
            (aC * (t.2 + p * cfgQ.trCoil) + (1 - aC) * t.1,
             aM * (cfgQ.tAmbient + p * cfgQ.trMagnet) + (1 - aM) * t.2))
          (s0Q.tCoil, s0Q.tMagnet) :=
  ⟨by decide, by decide, by norm_num, runModel_eval_Q,
    C1_run_model_per_sample_fold "Left" cfgQ s0Q [0, 0] 1 s1Q 0 (by decide) (by decide)
      (by norm_num) runModel_eval_Q⟩

/-- C4: for every well-formed frame, `run_model` raises a fatal fault iff
either some per-sample update pushes `t_coil` or `t_magnet` strictly above
`t_limit + t_headroom` (checked immediately after each sample, aborting the
rest of the frame — hence the exists-a-prefix formulation over the pure
fold), or the frame's average power `pwr_sum / N` over the `N` samples is
below `-0.01`; in all other cases it returns normally. -/
theorem C4_run_model_fatal_iff (drv : String) (cfg : SpeakerCfg α)
    (s : SpeakerState α) (buf : List Int) (rate : α)
    (hch : cfg.channels ≠ 0) (hdvd : cfg.channels ∣ buf.length)
    (hvs : cfg.vsChan < cfg.channels) (his : cfg.isChan < cfg.channels) :
    (∃ e, runModel drv cfg s buf rate = .error e) ↔
      ((∃ k, k < buf.length / cfg.channels ∧
          exceeds cfg (foldTemps cfg (1 / rate / (cfg.tauCoil + 1 / rate))
            (1 / rate / (cfg.tauMagnet + 1 / rate)) buf (s.tCoil, s.tMagnet)
            (List.range (k + 1)))) ∨
        ((List.range (buf.length / cfg.channels)).map (samplePwr cfg buf)).sum /
            ((buf.length / cfg.channels : Nat) : α) < -(1 / 100)) := by
  rcases hN : runSamples cfg drv (1 / rate / (cfg.tauCoil + 1 / rate))
      (1 / rate / (cfg.tauMagnet + 1 / rate)) buf
      (List.range (buf.length / cfg.channels)) ((s.tCoil, s.tMagnet), 0) with e | TP
  · refine iff_of_true ⟨e, ?_⟩ (.inl ?_)
    · simp only [runModel]
      rw [hN]
    · exact (runSamples_err_iff cfg drv _ _ buf _ _ _).mp ⟨e, hN⟩
  · obtain ⟨T, P⟩ := TP
    obtain ⟨hT, hP⟩ := runSamples_ok_elim cfg drv _ _ buf _ _ _ T P hN
    have hnoerr : ¬ ∃ k, k < buf.length / cfg.channels ∧
        exceeds cfg (foldTemps cfg (1 / rate / (cfg.tauCoil + 1 / rate))
          (1 / rate / (cfg.tauMagnet + 1 / rate)) buf (s.tCoil, s.tMagnet)
          (List.range (k + 1))) := by
      intro hx
      obtain ⟨e, he⟩ := (runSamples_err_iff cfg drv _ _ buf _ _ _).mpr hx
      rw [hN] at he
      exact absurd he (by simp)
    rw [zero_add] at hP
    by_cases hneg : P / ((buf.length / cfg.channels : Nat) : α) < -(1 / 100)
    · refine iff_of_true ⟨.negPower drv, ?_⟩ (.inr ?_)
      · simp only [runModel]
        rw [hN]
        dsimp only
        rw [if_pos hneg]
      · rw [← hP]
        exact hneg
    · refine iff_of_false ?_ ?_
      · rintro ⟨e, he⟩
        simp only [runModel] at he
        rw [hN] at he
        dsimp only at he
        split_ifs at he with h1
        · exact hneg h1
      · rintro (hx | hx)
        · exact hnoerr hx
        · rw [← hP] at hx
          exact hneg hx

/-- Witness for C4 at a concrete frame: one zero-valued stereo sample. -/
theorem C4_witness :
    cfgQ.channels ≠ 0 ∧ cfgQ.channels ∣ ([0, 0] : List Int).length ∧
      cfgQ.vsChan < cfgQ.channels ∧ cfgQ.isChan < cfgQ.channels ∧
      ((∃ e, runModel "Left" cfgQ s0Q [0, 0] (1 : ℚ) = .error e) ↔
        ((∃ k, k < ([0, 0] : List Int).length / cfgQ.channels ∧
            exceeds cfgQ (foldTemps cfgQ (1 / 1 / (cfgQ.tauCoil + 1 / 1))
              (1 / 1 / (cfgQ.tauMagnet + 1 / 1)) [0, 0] (s0Q.tCoil, s0Q.tMagnet)
              (List.range (k + 1)))) ∨
          ((List.range (([0, 0] : List Int).length / cfgQ.channels)).map
              (samplePwr cfgQ [0, 0])).sum /
              ((([0, 0] : List Int).length / cfgQ.channels : Nat) : ℚ) < -(1 / 100))) :=
  ⟨by decide, by decide, by decide, by decide,
    C4_run_model_fatal_iff "Left" cfgQ s0Q [0, 0] 1 (by decide) (by decide) (by decide)
      (by decide)⟩


/-- C3 counterexample: a speaker constructed by `Speaker::new` (warm boot,
amp gain 0 dB) has `min_gain = -10`, yet a single reachable `run_model` call
(one sample of `(v, i) = (0.25, 0.125)` at 1 Hz) commits the gain
`-185/16 = -11.5625 < min_gain`, because `reduction > 1` once the hysteretic
temperature exceeds `t_limit`.  This refutes `min_gain ≤ g` for committed
gains. -/
theorem C3_counterexample :
    (speakerNewState cfgC3 false 0).minGain = -10 ∧
      runModel "Left" cfgC3 (speakerNewState cfgC3 false 0) [4096, 2048] 1 =
        .ok ({ tCoil := 825/8, tMagnet := 625/8, tCoilHyst := 825/8,
               tMagnetHyst := 625/8, minGain := -10, gain := -185/16 }, -185/16) ∧
      (-185/16 : ℝ) < -10 := by
  refine ⟨by rw [speakerNewState_cfgC3_eval], ?_, by norm_num⟩
  rw [speakerNewState_cfgC3_eval]
  norm_num [runModel, runSamples, tempStep, samplePwr, sampleV, sampleI, cfgC3,
    List.range_succ]

/-- C3 amended: for a speaker whose window is positive, whose headroom and
hysteresis margins are nonnegative, whose `min_gain ≤ 0`, and whose incoming
temperatures respect the panic bound, every gain committed by a completing
`run_model` satisfies
`min_gain · (t_window + t_headroom + t_hysteresis)/t_window ≤ g ≤ 0`; and
`min_gain ≤ g` does hold whenever the limiter temperature
`max(t_coil_hyst, t_magnet_hyst)` stays at or below `t_limit`. -/
theorem C3_gain_bounds (drv : String) (cfg : SpeakerCfg α) (s : SpeakerState α)
    (buf : List Int) (rate : α) (s' : SpeakerState α) (g : α)
    (hW : 0 < cfg.tWindow) (hH : 0 ≤ cfg.tHeadroom) (hY : 0 ≤ cfg.tHysteresis)
    (hmg : s.minGain ≤ 0)
    (hc0 : s.tCoil ≤ cfg.tLimit + cfg.tHeadroom)
    (hm0 : s.tMagnet ≤ cfg.tLimit + cfg.tHeadroom)
    (hok : runModel drv cfg s buf rate = .ok (s', g)) :
    s.minGain * ((cfg.tWindow + cfg.tHeadroom + cfg.tHysteresis) / cfg.tWindow) ≤ g ∧
      g ≤ 0 ∧
      (max s'.tCoilHyst s'.tMagnetHyst ≤ cfg.tLimit → s.minGain ≤ g) := by
  simp only [runModel] at hok
  rcases hN : runSamples cfg drv (1 / rate / (cfg.tauCoil + 1 / rate))
      (1 / rate / (cfg.tauMagnet + 1 / rate)) buf
      (List.range (buf.length / cfg.channels)) ((s.tCoil, s.tMagnet), 0) with e | TP
  · rw [hN] at hok
    exact absurd hok (by simp)
  · obtain ⟨T, P⟩ := TP
    rw [hN] at hok
    dsimp only at hok
    obtain ⟨hb1, hb2⟩ := runSamples_ok_bounds cfg drv _ _ buf _ _ _ T P hN hc0 hm0
    set hy1 := min (max s.tCoilHyst T.1) (T.1 + cfg.tHysteresis) with hhy1
    set hy2 := min (max s.tMagnetHyst T.2) (T.2 + cfg.tHysteresis) with hhy2
    have htemp : max hy1 hy2 ≤ cfg.tLimit + cfg.tHeadroom + cfg.tHysteresis := by
      apply max_le
      · exact le_trans (min_le_right _ _) (by linarith)
      · exact le_trans (min_le_right _ _) (by linarith)
    have hBnn : 0 ≤ (cfg.tWindow + cfg.tHeadroom + cfg.tHysteresis) / cfg.tWindow :=
      div_nonneg (by linarith) hW.le
    have hred : (max hy1 hy2 - (cfg.tLimit - cfg.tWindow)) / cfg.tWindow ≤
        (cfg.tWindow + cfg.tHeadroom + cfg.tHysteresis) / cfg.tWindow :=
      (div_le_div_iff_of_pos_right hW).mpr (by linarith)
    have hmax : max ((max hy1 hy2 - (cfg.tLimit - cfg.tWindow)) / cfg.tWindow) 0 ≤
        (cfg.tWindow + cfg.tHeadroom + cfg.tHysteresis) / cfg.tWindow :=
      max_le hred hBnn
    have hlow : s.minGain * ((cfg.tWindow + cfg.tHeadroom + cfg.tHysteresis) /
        cfg.tWindow) ≤
        s.minGain * max ((max hy1 hy2 - (cfg.tLimit - cfg.tWindow)) / cfg.tWindow) 0 :=
      mul_le_mul_of_nonpos_left hmax hmg
    have hup : s.minGain *
        max ((max hy1 hy2 - (cfg.tLimit - cfg.tWindow)) / cfg.tWindow) 0 ≤ 0 := by
      have := mul_le_mul_of_nonpos_left
        (le_max_right ((max hy1 hy2 - (cfg.tLimit - cfg.tWindow)) / cfg.tWindow) 0) hmg
      simpa using this
    split_ifs at hok with hneg hsnap
    · injection hok with h0
      injection h0 with hs hg
      subst hs
      subst hg
      refine ⟨?_, le_refl 0, fun _ => hmg⟩
      calc s.minGain * ((cfg.tWindow + cfg.tHeadroom + cfg.tHysteresis) / cfg.tWindow) ≤
            s.minGain * max ((max hy1 hy2 - (cfg.tLimit - cfg.tWindow)) / cfg.tWindow) 0 :=
          hlow
        _ ≤ 0 := hup
    · injection hok with h0
      injection h0 with hs hg
      subst hs
      subst hg
      refine ⟨hlow, hup, fun htL => ?_⟩
      have hred1 : (max hy1 hy2 - (cfg.tLimit - cfg.tWindow)) / cfg.tWindow ≤ 1 := by
        rw [div_le_one hW]
        simp only [SpeakerState.mk.injEq] at htL ⊢
        linarith [htL]
      have hmax1 : max ((max hy1 hy2 - (cfg.tLimit - cfg.tWindow)) / cfg.tWindow) 0 ≤ 1 :=
        max_le hred1 zero_le_one
      have := mul_le_mul_of_nonpos_left hmax1 hmg
      simpa using this

/-- Witness for the amended C3 at a concrete completing run. -/
theorem C3_witness :
    (0 : ℚ) < cfgQ.tWindow ∧ (0 : ℚ) ≤ cfgQ.tHeadroom ∧ (0 : ℚ) ≤ cfgQ.tHysteresis ∧
      s0Q.minGain ≤ 0 ∧ s0Q.tCoil ≤ cfgQ.tLimit + cfgQ.tHeadroom ∧
      s0Q.tMagnet ≤ cfgQ.tLimit + cfgQ.tHeadroom ∧
      (s0Q.minGain * ((cfgQ.tWindow + cfgQ.tHeadroom + cfgQ.tHysteresis) /
          cfgQ.tWindow) ≤ 0 ∧
        (0 : ℚ) ≤ 0 ∧
        (max s1Q.tCoilHyst s1Q.tMagnetHyst ≤ cfgQ.tLimit → s0Q.minGain ≤ 0)) :=
  ⟨by norm_num [cfgQ], by norm_num [cfgQ], by norm_num [cfgQ], by norm_num [s0Q],
    by norm_num [cfgQ, s0Q], by norm_num [cfgQ, s0Q],
    C3_gain_bounds "Left" cfgQ s0Q [0, 0] 1 s1Q 0 (by norm_num [cfgQ])
      (by norm_num [cfgQ]) (by norm_num [cfgQ]) (by norm_num [s0Q])
      (by norm_num [cfgQ, s0Q]) (by norm_num [cfgQ, s0Q]) runModel_eval_Q⟩


/-- C2: in every supervisor iteration that raises a fatal fault, the
"Speaker Volume Unlock" sentinel is not written in that iteration; every
iteration that completes normally ends its write trace with the sentinel
write of `UNLOCK_MAGIC` (`0xdec1be15u32 as i32`), src/main.rs:373. -/
theorem C2_unlock_write_discipline (G : LoopGlobals α) (expf : α → α)
    (st : LoopSt α) (inp : IterIn α) :
    (∀ f w, loopIter G expf st inp = .fatal f w →
        ∀ v, Write.intWrite "Speaker Volume Unlock" v ∉ w) ∧
      (∀ st' w, loopIter G expf st inp = .next st' w →
        w.getLast? = some (.intWrite "Speaker Volume Unlock" UNLOCK_MAGIC)) := by
  rcases loopIter_cases G expf st inp with h | h | h | h | h | ⟨r, b, g1, b2, h⟩ <;> rw [h]
  · exact ⟨fun f w hh v => by injection hh with h1 h2; rw [← h2]; simp,
           fun st' w hh => absurd hh (by simp)⟩
  · exact ⟨fun f w hh v => absurd hh (by simp),
           fun st' w hh => absurd hh (by simp)⟩
  · exact ⟨fun f w hh v => by injection hh with h1 h2; rw [← h2]; simp,
           fun st' w hh => absurd hh (by simp)⟩
  · exact ⟨fun f w hh v => by injection hh with h1 h2; rw [← h2]; simp,
           fun st' w hh => absurd hh (by simp)⟩
  · exact ⟨fun f w hh v => by injection hh with h1 h2; rw [← h2]; simp,
           fun st' w hh => absurd hh (by simp)⟩
  · exact iterTail_writes G st r b g1 b2

/-- Witness for C2 at a concrete iteration. -/
theorem C2_witness :
    (∀ f w, loopIter Gq (fun x => x) stQ inpQ = .fatal f w →
        ∀ v, Write.intWrite "Speaker Volume Unlock" v ∉ w) ∧
      (∀ st' w, loopIter Gq (fun x => x) stQ inpQ = .next st' w →
        w.getLast? = some (.intWrite "Speaker Volume Unlock" UNLOCK_MAGIC)) :=
  C2_unlock_write_discipline Gq (fun x => x) stQ inpQ

/-- C5: (1) over `ℝ` with the true exponential, `skip_model` realizes the
claim's closed form: with `T_c = t_coil − t_ambient`, `T_m = t_magnet −
t_ambient`, `η = 1/(1 − τ_coil/τ_magnet)`, `A = exp(−time/τ_coil)·(T_c −
η·T_m)`, `B = exp(−time/τ_magnet)·T_m`, it sets `t_coil = t_ambient + A +
η·B` and `t_magnet = t_ambient + B`; (2) the supervisor loop invokes
`skip_model` exactly when the wall gap `dt` exceeds `4·period/sample_rate`,
with argument `dt − period/sample_rate`, on every speaker of every group,
and then also clears the blackbox ring (src/main.rs:317-330). -/
theorem C5_skip_model_closed_form_and_invocation :
    (∀ (cfg : SpeakerCfg ℝ) (s : SpeakerState ℝ) (time : ℝ),
        cfg.tauCoil ≠ cfg.tauMagnet →
        (skipModel cfg Real.exp s time).tCoil =
            cfg.tAmbient +
              Real.exp (-time / cfg.tauCoil) *
                ((s.tCoil - cfg.tAmbient) -
                  1 / (1 - cfg.tauCoil / cfg.tauMagnet) * (s.tMagnet - cfg.tAmbient)) +
              1 / (1 - cfg.tauCoil / cfg.tauMagnet) *
                (Real.exp (-time / cfg.tauMagnet) * (s.tMagnet - cfg.tAmbient)) ∧
          (skipModel cfg Real.exp s time).tMagnet =
            cfg.tAmbient + Real.exp (-time / cfg.tauMagnet) * (s.tMagnet - cfg.tAmbient)) ∧
    (∀ (β : Type) [inst : LinearOrderedField β] (G : LoopGlobals β) (expf : β → β)
        (st : LoopSt β) (inp : IterIn β) (read : Nat),
        inp.sigquit0 = false → inp.readRes = .ok read → inp.sigquitAfter = false →
        ∀ rate' : Int,
          rate' = (if inp.curRate ≠ 0 ∧ inp.curRate ≠ st.sampleRate then inp.curRate
                   else st.sampleRate) →
          rate' ≠ 0 → 0 < inp.dt →
          ((4 * ((G.period : β) / (rate' : β)) < inp.dt →
              loopIter G expf st inp =
                iterTail G st rate' (inp.buf.take (read * G.channels))
                  (st.groups.map (fun p => (p.1, SpeakerGroup.mk
                    (p.2.speakers.map (fun sp => Sp.mk sp.name sp.cfg
                      (skipModel sp.cfg expf sp.st
                        (inp.dt - (G.period : β) / (rate' : β)))))
                    p.2.gain)))
                  ((if inp.curRate ≠ 0 ∧ inp.curRate ≠ st.sampleRate
                    then st.blackbox.map (fun _ => ([] : List (Block β)))
                    else st.blackbox).map (fun _ => []))) ∧
            (¬ 4 * ((G.period : β) / (rate' : β)) < inp.dt →
              loopIter G expf st inp =
                iterTail G st rate' (inp.buf.take (read * G.channels)) st.groups
                  (if inp.curRate ≠ 0 ∧ inp.curRate ≠ st.sampleRate
                   then st.blackbox.map (fun _ => ([] : List (Block β)))
                   else st.blackbox)))) := by
  constructor
  · intro cfg s time _
    constructor
    · simp only [skipModel]
      ring
    · simp only [skipModel]
  · intro β inst G expf st inp read hs0 hread hsa rate' hrate hr hdt
    rw [loopIter_ok_read G expf st inp read hs0 hread,
        loopIterRead_eq G expf st inp read hsa (hrate ▸ hr) hdt]
    subst hrate
    constructor
    · intro h4
      rw [if_pos h4]
      rfl
    · intro h4
      rw [if_neg h4]

/-- Witness for C5: the closed form at a concrete real speaker, and the
loop-invocation property at a concrete rational iteration. -/
theorem C5_witness :
    ((skipModel cfgC3 Real.exp
        { tCoil := 100, tMagnet := 75, tCoilHyst := 0, tMagnetHyst := 0,
          minGain := -10, gain := 0 } 1).tCoil =
          cfgC3.tAmbient +
            Real.exp (-1 / cfgC3.tauCoil) *
              (((100 : ℝ) - cfgC3.tAmbient) -
                1 / (1 - cfgC3.tauCoil / cfgC3.tauMagnet) * ((75 : ℝ) - cfgC3.tAmbient)) +
            1 / (1 - cfgC3.tauCoil / cfgC3.tauMagnet) *
              (Real.exp (-1 / cfgC3.tauMagnet) * ((75 : ℝ) - cfgC3.tAmbient)) ∧
      (skipModel cfgC3 Real.exp
        { tCoil := 100, tMagnet := 75, tCoilHyst := 0, tMagnetHyst := 0,
          minGain := -10, gain := 0 } 1).tMagnet =
          cfgC3.tAmbient + Real.exp (-1 / cfgC3.tauMagnet) * ((75 : ℝ) - cfgC3.tAmbient)) ∧
    ((4 * ((Gq.period : ℚ) / ((2 : Int) : ℚ)) < inpQ.dt →
        loopIter Gq (fun x => x) stQ inpQ =
          iterTail Gq stQ 2 (inpQ.buf.take (1 * Gq.channels))
            (stQ.groups.map (fun p => (p.1, SpeakerGroup.mk
              (p.2.speakers.map (fun sp => Sp.mk sp.name sp.cfg
                (skipModel sp.cfg (fun x => x)
                  sp.st (inpQ.dt - (Gq.period : ℚ) / ((2 : Int) : ℚ)))))
              p.2.gain)))
            ((if inpQ.curRate ≠ 0 ∧ inpQ.curRate ≠ stQ.sampleRate
              then stQ.blackbox.map (fun _ => ([] : List (Block ℚ)))
              else stQ.blackbox).map (fun _ => []))) ∧
      (¬ 4 * ((Gq.period : ℚ) / ((2 : Int) : ℚ)) < inpQ.dt →
        loopIter Gq (fun x => x) stQ inpQ =
          iterTail Gq stQ 2 (inpQ.buf.take (1 * Gq.channels)) stQ.groups
            (if inpQ.curRate ≠ 0 ∧ inpQ.curRate ≠ stQ.sampleRate
             then stQ.blackbox.map (fun _ => ([] : List (Block ℚ)))
             else stQ.blackbox))) := by
  constructor
  · have h1 := C5_skip_model_closed_form_and_invocation.1 cfgC3
      { tCoil := 100, tMagnet := 75, tCoilHyst := 0, tMagnetHyst := 0,
        minGain := -10, gain := 0 } 1 (by norm_num [cfgC3])
    simpa using h1
  · exact C5_skip_model_closed_form_and_invocation.2 ℚ Gq (fun x => x) stQ inpQ 1
      rfl rfl rfl 2 (by decide) (by decide) (by norm_num [inpQ])


/-- C6 counterexample: with a retained sample rate of 2 Hz an iteration in
which the "Speaker Sample Rate" knob reads 0 does NOT raise a fatal fault —
it completes normally (the code keeps the previously seen rate,
src/main.rs:305-315); the claim demands a fatal fault in every iteration in
which the knob reports 0. -/
theorem C6_counterexample :
    inpQ.curRate = 0 ∧ stQ.sampleRate ≠ 0 ∧
      (loopIter Gq (fun x => x) stQ inpQ).isNext = true := by
  refine ⟨rfl, by decide, ?_⟩
  norm_num [loopIter, loopIterRead, iterTail, runGroups, runSpeakers, runModel,
    runSamples, tempStep, samplePwr, sampleV, sampleI, groupWrites, newGain,
    thresholdHit, Gq, stQ, inpQ, spQ, cfgQ, s0Q, List.range_succ, IterOut.isNext,
    Except.map, List.foldl]

/-- C6 amended: the sample-rate knob is read every iteration; a nonzero
reading that differs from the retained rate updates it and clears the
blackbox before the rest of the iteration runs; a zero reading leaves the
retained rate in place, and the iteration raises the invalid-rate fatal
fault iff the retained rate is zero, i.e. iff the knob reads 0 AND no
nonzero rate was ever retained (src/main.rs:303-315). -/
theorem C6_sample_rate_handling (G : LoopGlobals α) (expf : α → α) (st : LoopSt α)
    (inp : IterIn α) (read : Nat) (hs0 : inp.sigquit0 = false)
    (hread : inp.readRes = .ok read) (hsa : inp.sigquitAfter = false)
    (hdt : 0 < inp.dt) :
    ((loopIter G expf st inp = .fatal .invalidRate []) ↔
        (inp.curRate = 0 ∧ st.sampleRate = 0)) ∧
      (inp.curRate ≠ 0 ∧ inp.curRate ≠ st.sampleRate →
        loopIter G expf st inp =
          (let bufRead := inp.buf.take (read * G.channels)
           let pt : α := (G.period : α) / ((inp.curRate : Int) : α)
           if 4 * pt < inp.dt then
             iterTail G st inp.curRate bufRead (skipGroups expf (inp.dt - pt) st.groups)
               ((st.blackbox.map (fun _ => ([] : List (Block α)))).map (fun _ => []))
           else iterTail G st inp.curRate bufRead st.groups
             (st.blackbox.map (fun _ => ([] : List (Block α)))))) := by
  constructor
  · constructor
    · intro h
      by_contra hne
      rw [← rate_ite_eq_zero inp.curRate st.sampleRate] at hne
      rw [loopIter_ok_read G expf st inp read hs0 hread,
          loopIterRead_eq G expf st inp read hsa hne hdt] at h
      dsimp only at h
      split_ifs at h <;>
        exact absurd ((iterTail_fatal_kinds _ _ _ _ _ _ _ _ h).1) (by simp)
    · intro hz
      rw [loopIter_ok_read G expf st inp read hs0 hread]
      unfold loopIterRead
      rw [if_neg (by simp [hsa])]
      dsimp only
      rw [if_pos ((rate_ite_eq_zero inp.curRate st.sampleRate).mpr hz)]
  · intro hch
    rw [loopIter_ok_read G expf st inp read hs0 hread,
        loopIterRead_eq G expf st inp read hsa
          (by rw [if_pos hch]; exact hch.1) hdt]
    dsimp only
    simp only [if_pos hch]

/-- Witness for the amended C6 at a concrete iteration whose knob reports a
new nonzero rate. -/
theorem C6_witness :
    inpQ3.sigquit0 = false ∧ inpQ3.readRes = .ok 1 ∧ inpQ3.sigquitAfter = false ∧
      (0 : ℚ) < inpQ3.dt ∧
      (((loopIter Gq (fun x => x) stQ inpQ3 = .fatal .invalidRate []) ↔
          (inpQ3.curRate = 0 ∧ stQ.sampleRate = 0)) ∧
        (inpQ3.curRate ≠ 0 ∧ inpQ3.curRate ≠ stQ.sampleRate →
          loopIter Gq (fun x => x) stQ inpQ3 =
            (let bufRead := inpQ3.buf.take (1 * Gq.channels)
             let pt : ℚ := (Gq.period : ℚ) / ((inpQ3.curRate : Int) : ℚ)
             if 4 * pt < inpQ3.dt then
               iterTail Gq stQ inpQ3.curRate bufRead
                 (skipGroups (fun x => x) (inpQ3.dt - pt) stQ.groups)
                 ((stQ.blackbox.map (fun _ => ([] : List (Block ℚ)))).map (fun _ => []))
             else iterTail Gq stQ inpQ3.curRate bufRead stQ.groups
               (stQ.blackbox.map (fun _ => ([] : List (Block ℚ))))))) :=
  ⟨rfl, rfl, rfl, by norm_num [inpQ3],
    C6_sample_rate_handling Gq (fun x => x) stQ inpQ3 1 rfl rfl rfl
      (by norm_num [inpQ3])⟩

/-- C10: (1) whenever the blackbox is enabled, the iteration reaches the
snapshot phase, and some index in `0..=max` of the group keys has no group,
the iteration panics at the `BTreeMap` index (`groups[&i]`,
src/main.rs:337) with the first missing index — the daemon cannot complete
the period; (2) the startup assertions (src/main.rs:202-209) accept the
non-contiguous group numbering `{0, 2}` with 2 speakers and 4 channels, so
no startup check rules this out. -/
theorem C10_group_index_panic :
    (∀ (β : Type) [inst : LinearOrderedField β] (G : LoopGlobals β) (expf : β → β)
        (st : LoopSt β) (inp : IterIn β) (read : Nat) (blocks : List (Block β))
        (m i0 : Nat),
        inp.sigquit0 = false → inp.readRes = .ok read → inp.sigquitAfter = false →
        ¬ (inp.curRate = 0 ∧ st.sampleRate = 0) → 0 < inp.dt →
        st.blackbox = some blocks →
        (st.groups.map Prod.fst).max? = some m →
        (List.range (m + 1)).find? (fun i => (lookupGroup st.groups i).isNone) =
          some i0 →
        loopIter G expf st inp = .fatal (.missingGroup i0) []) ∧
      startupChecks [0, 2] 4 = true := by
  constructor
  · intro β inst G expf st inp read blocks m i0 hs0 hread hsa hrate hdt hbb hM hF
    have hr : (if inp.curRate ≠ 0 ∧ inp.curRate ≠ st.sampleRate then inp.curRate
        else st.sampleRate) ≠ 0 := by
      rw [Ne, rate_ite_eq_zero]
      exact hrate
    rw [loopIter_ok_read G expf st inp read hs0 hread,
        loopIterRead_eq G expf st inp read hsa hr hdt]
    dsimp only
    have hsnap : snapshot st.groups = Except.error (.missingGroup i0) :=
      snapshot_err_of_find st.groups m i0 hM hF
    have hsnapSkip : ∀ t : β, snapshot (skipGroups expf t st.groups) =
        Except.error (.missingGroup i0) := by
      intro t
      apply snapshot_err_of_find (skipGroups expf t st.groups) m i0
      · rw [keys_skipGroups]
        exact hM
      · have hfun : (fun i => (lookupGroup (skipGroups expf t st.groups) i).isNone) =
            (fun i => (lookupGroup st.groups i).isNone) :=
          funext (fun i => lookupGroup_skipGroups_isNone expf t st.groups i)
        rw [hfun]
        exact hF
    rcases hbb1 : (if inp.curRate ≠ 0 ∧ inp.curRate ≠ st.sampleRate
        then st.blackbox.map (fun _ => ([] : List (Block β)))
        else st.blackbox) with _ | blocks1
    · exfalso
      rw [hbb] at hbb1
      split_ifs at hbb1 <;> simp at hbb1
    · split_ifs <;>
        (try simp only [Option.map_some']) <;>
        first
          | rw [iterTail_snapshot_fatal G st _ _ _ _ _ (hsnapSkip _)]
          | rw [iterTail_snapshot_fatal G st _ _ _ _ _ hsnap]
  · decide

/-- Witness for C10 at a concrete loop state with group keys `{0, 2}` and
the blackbox enabled: the iteration panics at the missing key 1. -/
theorem C10_witness :
    stW10.blackbox = some [] ∧
      (stW10.groups.map Prod.fst).max? = some 2 ∧
      (List.range 3).find? (fun i => (lookupGroup stW10.groups i).isNone) = some 1 ∧
      loopIter Gq (fun x => x) stW10 inpQ = .fatal (.missingGroup 1) [] := by
  refine ⟨rfl, by decide, by decide, ?_⟩
  exact C10_group_index_panic.1 ℚ Gq (fun x => x) stW10 inpQ 1 [] 2 1 rfl rfl rfl
    (by decide) (by norm_num [inpQ]) rfl (by decide) (by decide)


/-- C9: the blackbox ring never exceeds `MAX_BLOCKS = 330` blocks over any
sequence of push/reset operations from the empty ring; a push at capacity
evicts the oldest block first (FIFO); `reset` empties the ring; and
`preserve` on an empty ring creates no files and succeeds
(src/blackbox.rs:26,38-57). -/
theorem C9_ring_capacity :
    (∀ ops : List (BBOp α), (ops.foldl bbApply []).length ≤ MAX_BLOCKS) ∧
      (∀ (l : List (Block α)) (b : Block α), l.length = MAX_BLOCKS →
        bbPush l b = l.tail ++ [b]) ∧
      (∀ l : List (Block α), bbReset l = []) ∧
      (∀ (machine : String) (channels : Nat) (tA tS tH : α) (now reason : String),
        preserveFiles (Blackbox.mk machine channels tA tS tH []) now reason = []) := by
  refine ⟨?_, bbPush_at_capacity, fun _ => rfl, fun _ _ _ _ _ _ _ => rfl⟩
  have aux : ∀ (ops : List (BBOp α)) (l : List (Block α)), l.length ≤ MAX_BLOCKS →
      (ops.foldl bbApply l).length ≤ MAX_BLOCKS := by
    intro ops
    induction ops with
    | nil => intro l hl; exact hl
    | cons op ops ih =>
      intro l hl
      exact ih (bbApply l op) (bbApply_length_le l op)
  intro ops
  exact aux ops [] (by simp [MAX_BLOCKS])

/-- Witness for C9's at-capacity clause: a full ring of 330 blocks. -/
theorem C9_witness :
    (List.replicate MAX_BLOCKS blkQ).length = MAX_BLOCKS ∧
      bbPush (List.replicate MAX_BLOCKS blkQ) blkQ =
        (List.replicate MAX_BLOCKS blkQ).tail ++ [blkQ] := by
  have hl : (List.replicate MAX_BLOCKS blkQ).length = MAX_BLOCKS :=
    List.length_replicate MAX_BLOCKS blkQ
  exact ⟨hl, (C9_ring_capacity (α := ℚ)).2.1 _ blkQ hl⟩

/-- C7 counterexample: on a concrete nonempty ring, the metadata JSON's
top-level keys are `message, machine, sample_rate, channels, t_ambient,
t_safe_max, t_hysteresis, blocks` — there is no top-level `state` key
(src/blackbox.rs:79-116 emit the nested `blocks` shape, not the flat
`state` array the claim describes). -/
theorem C7_counterexample :
    (metaJson bbQ7 "panic message").topKeys =
      ["message", "machine", "sample_rate", "channels", "t_ambient", "t_safe_max",
       "t_hysteresis", "blocks"] ∧
      "state" ∉ (metaJson bbQ7 "panic message").topKeys := by
  constructor
  · rfl
  · decide

/-- C7 amended: `preserve` on a nonempty ring writes `<now>.meta` and
`<now>.raw`; the meta JSON is a top-level object with keys `message`
(carrying the panic reason verbatim), `machine`, `sample_rate` (of the
first block), `channels`, `t_ambient`, `t_safe_max`, `t_hysteresis` and
`blocks`, where `blocks` is an array with one entry per ring block, each an
object `sample_rate`/`sample_count`/`speakers` whose `speakers` array is
the flat list of per-speaker snapshots (`t_coil`, `t_magnet`,
`t_coil_hyst`, `t_magnet_hyst`, `min_gain`, `gain`) taken — for every
block — from the FIRST block's state (src/blackbox.rs:100 iterates
`self.blocks[0].state`); the raw file is the concatenated sample data. -/
theorem C7_meta_shape (machine : String) (channels : Nat) (tA tS tH : α)
    (b0 : Block α) (rest : List (Block α)) (now reason : String) :
    preserveFiles (Blackbox.mk machine channels tA tS tH (b0 :: rest)) now reason =
      [(now ++ ".meta", .meta (Json.obj
        [("message", .jstr reason), ("machine", .jstr machine),
         ("sample_rate", .jint b0.sampleRate), ("channels", .jnat channels),
         ("t_ambient", .jnum tA), ("t_safe_max", .jnum tS), ("t_hysteresis", .jnum tH),
         ("blocks", .arr ((b0 :: rest).map (fun block => Json.obj
            [("sample_rate", .jint block.sampleRate),
             ("sample_count", .jnat (block.data.length / channels)),
             ("speakers", .arr ((b0.state.map
                (fun group => group.map speakerStateJson)).flatten))])))])),
       (now ++ ".raw", .raw (((b0 :: rest).map Block.data).flatten))] := by
  rfl

/-- C8: evaluation of the sense-switch initialization of `Mixer::new` at
the failing card: when ISENSE reads back `false` but VSENSE reads back
`true`, construction SUCCEEDS — the source re-reads and re-asserts the
VSENSE element after the ISENSE write (src/types.rs:107-108), so the
ISENSE readback is never checked, contradicting the claim and the spec;
the second conjunct shows the VSENSE readback is what both assertions
check. -/
theorem C8_isense_readback_not_checked :
    mixerSenseInit { vsenseRead := true, isenseRead := false } = .ok () ∧
      mixerSenseInit { vsenseRead := false, isenseRead := true } =
        .error "VSENSE readback assert failed" :=
  ⟨rfl, rfl⟩

end SpeakerSafety
